import Mathlib

/-!
Shallow embedding of the compliance-computation core of the MacAdministration
repository (Scripts/jamfPro_CustomPatchReport_MinVersSupport.py and
Scripts/jamf_compliance_report_monthly_v2.1.py), together with theorems that
settle the frozen claims about it.

Conventions used throughout:
* Python strings are Lean `String`s; character-level work happens on `.data`.
* Python `datetime` parsing and the external `packaging.version` library are
  environment dependencies; they enter as explicit function parameters
  (`parse : String → Option Int` for timestamp parsing into epoch seconds,
  `pkg : Option (String → String → Option Bool)` for the optional semantic
  version comparator, `none` inside meaning a parse exception).
* Python floats are modelled by `Rat`; every concrete scenario proved below
  uses values on which binary floating point is exact, so the rational model
  agrees with the float computation there.
* Python `round` (banker's rounding, half to even) is `roundHE`.
-/

namespace MacAdmin

/-- Characters removed by Python `str.strip()` (the ASCII whitespace set). -/
def isPySpace (c : Char) : Bool :=
  c.toNat = 32 || c.toNat = 9 || c.toNat = 10 || c.toNat = 13 || c.toNat = 11 || c.toNat = 12

/-- Python `str.strip()` on a character list. -/
def pyStripL (cs : List Char) : List Char :=
  ((cs.dropWhile isPySpace).reverse.dropWhile isPySpace).reverse

/-- Python `str.strip()`. -/
def pyStrip (s : String) : String := ⟨pyStripL s.data⟩

/-- Lowercase one character (ASCII case fold, as Python `str.lower` on ASCII). -/
def lowerChar (c : Char) : Char :=
  if 65 ≤ c.toNat && c.toNat ≤ 90 then Char.ofNat (c.toNat + 32) else c

/-- Python `str.lower()`. -/
def pyLower (s : String) : String := ⟨s.data.map lowerChar⟩

/-- One step of `re.sub(r"\(.*?\)", "", s)`: the state is `none` when scanning
normally and `some buf` when inside a candidate parenthesized span opened by an
unmatched `(` (with `buf` the chars seen since, reversed).  A span is dropped at
the first `)`; it is abandoned (all chars kept) at a newline — the regex dot
does not cross newlines — or at end of input.  A `(` inside an abandoned span
cannot itself start a successful match, because the span was abandoned exactly
for lack of a `)` before the newline or the end, so this single pass computes
the same result as the regex substitution. -/
def removeParensAux : Option (List Char) → List Char → List Char
  | none, [] => []
  | some buf, [] => '(' :: buf.reverse
  | none, c :: rest =>
    if c = '(' then removeParensAux (some []) rest
    else c :: removeParensAux none rest
  | some buf, c :: rest =>
    if c = ')' then removeParensAux none rest
    else if c = '\n' then ('(' :: buf.reverse) ++ '\n' :: removeParensAux none rest
    else removeParensAux (some (c :: buf)) rest

/-- Model of `re.sub(r"\(.*?\)", "", s)` from `normalize_version`. -/
def removeParens (cs : List Char) : List Char := removeParensAux none cs

/-- `normalize_version` from jamfPro_CustomPatchReport_MinVersSupport.py:
strip, drop parenthesized build metadata, strip again. -/
def normalize_version (s : String) : String :=
  ⟨pyStripL (removeParens (pyStripL s.data))⟩

/-- ASCII digit test, by code point. -/
def isDigitChar (c : Char) : Bool := 48 ≤ c.toNat && c.toNat ≤ 57

/-- ASCII letter test, by code point (the `[A-Za-z]` regex class). -/
def isAlphaChar (c : Char) : Bool :=
  (97 ≤ c.toNat && c.toNat ≤ 122) || (65 ≤ c.toNat && c.toNat ≤ 90)

/-- Value of a run of ASCII digits (Python `int(p)` on a digit run). -/
def digitsToNat (cs : List Char) : Nat :=
  cs.foldl (fun a c => 10 * a + (c.toNat - 48)) 0

/-- A `(kind, value)` token of the `version_gte` fallback tokenizer: kind 0 is
a numeric run, kind 1 a lowercased alphabetic run. -/
inductive Tok where
  | num (n : Nat)
  | alpha (s : List Char)
deriving DecidableEq

/-- Lexicographic comparison of char lists by code point (Python `str` order). -/
def charListCmp : List Char → List Char → Ordering
  | [], [] => .eq
  | [], _ :: _ => .lt
  | _ :: _, [] => .gt
  | a :: as, b :: bs =>
    if a.toNat < b.toNat then .lt
    else if b.toNat < a.toNat then .gt
    else charListCmp as bs

/-- Comparison of two tokens, as Python compares the `(kind, value)` pairs:
the kind tag 0 < 1 decides first, so a number is never compared to a string. -/
def tokCmp : Tok → Tok → Ordering
  | .num a, .num b => if a < b then .lt else if b < a then .gt else .eq
  | .num _, .alpha _ => .lt
  | .alpha _, .num _ => .gt
  | .alpha a, .alpha b => charListCmp a b

/-- Lexicographic comparison of token tuples, as Python compares tuples:
pairwise, and a strict prefix is less than its extension. -/
def toksCmp : List Tok → List Tok → Ordering
  | [], [] => .eq
  | [], _ :: _ => .lt
  | _ :: _, [] => .gt
  | a :: as, b :: bs =>
    match tokCmp a b with
    | .eq => toksCmp as bs
    | o => o

/-- Python `_tokens(a) >= _tokens(b)` on token tuples. -/
def toksGe (a b : List Tok) : Bool :=
  match toksCmp a b with
  | .lt => false
  | _ => true

/-- One left-to-right pass of the `_tokens` helper inside `version_gte`
(`re.findall(r"\d+|[A-Za-z]+", v)` turned into `(kind, value)` pairs).  The
state carries the maximal run currently being read, reversed: `some (true, run)`
inside a digit run, `some (false, run)` inside a letter run, `none` between
runs.  A run is emitted when a character of another class (or the end of the
input) terminates it, so digit runs become numeric tokens and letter runs
become lowercased alpha tokens, exactly the maximal-run tokenization of the
regex. -/
def tokenizeAux : Option (Bool × List Char) → List Char → List Tok
  | none, [] => []
  | some (true, run), [] => [Tok.num (digitsToNat run.reverse)]
  | some (false, run), [] => [Tok.alpha (run.reverse.map lowerChar)]
  | none, c :: rest =>
    if isDigitChar c then tokenizeAux (some (true, [c])) rest
    else if isAlphaChar c then tokenizeAux (some (false, [c])) rest
    else tokenizeAux none rest
  | some (true, run), c :: rest =>
    if isDigitChar c then tokenizeAux (some (true, c :: run)) rest
    else if isAlphaChar c then
      Tok.num (digitsToNat run.reverse) :: tokenizeAux (some (false, [c])) rest
    else Tok.num (digitsToNat run.reverse) :: tokenizeAux none rest
  | some (false, run), c :: rest =>
    if isAlphaChar c then tokenizeAux (some (false, c :: run)) rest
    else if isDigitChar c then
      Tok.alpha (run.reverse.map lowerChar) :: tokenizeAux (some (true, [c])) rest
    else Tok.alpha (run.reverse.map lowerChar) :: tokenizeAux none rest

/-- The `_tokens` helper of `version_gte`. -/
def tokenize (cs : List Char) : List Tok := tokenizeAux none cs

/-- `version_gte` from jamfPro_CustomPatchReport_MinVersSupport.py.  The
`pkg` parameter models the optional `packaging.version` import: `none` means
the library is unavailable; `some f` means it is available, `f a b` returning
`none` when `parse` raises (falling back to the tokenizer) and `some r` for the
comparison result `parse(a) >= parse(b)`. -/
def version_gte (pkg : Option (String → String → Option Bool)) (a b : String) : Bool :=
  if normalize_version b = "" then true
  else if normalize_version a = "" then false
  else
    match pkg with
    | some f =>
      match f (normalize_version a) (normalize_version b) with
      | some r => r
      | none => toksGe (tokenize (normalize_version a).data) (tokenize (normalize_version b).data)
    | none => toksGe (tokenize (normalize_version a).data) (tokenize (normalize_version b).data)

/-- Model of `packaging.version` parsing restricted to purely-numeric dotted
version strings (the domain of claim C4): the grammar `digits ('.' digits)*`,
yielding the PEP 440 release component list.  On any other string the real
library may raise `InvalidVersion` (and `version_gte` then falls back), so
`none` here stands for that failure.  `run` is the digit run currently being
read, reversed. -/
def pkgParseAux (run : List Char) : List Char → Option (List Nat)
  | [] => some [digitsToNat run.reverse]
  | c :: rest =>
    if isDigitChar c then pkgParseAux (c :: run) rest
    else if c = '.' then
      match rest with
      | [] => none
      | c2 :: rest2 =>
        if isDigitChar c2 then
          (pkgParseAux [c2] rest2).map (fun ns => digitsToNat run.reverse :: ns)
        else none
    else none

/-- Top entry of the numeric-dotted parser: the string must begin with a
digit. -/
def pkgParse : List Char → Option (List Nat)
  | [] => none
  | c :: rest => if isDigitChar c then pkgParseAux [c] rest else none

/-- Every element is zero. -/
def allZero (l : List Nat) : Bool := l.all (fun n => n == 0)

/-- PEP 440 comparison of release component lists: the shorter list is padded
with zeros, then components are compared left to right (an exhausted left list
compares as all zeros against the remaining right components, and vice
versa).  This is how `packaging.version.Version` orders purely-numeric dotted
versions. -/
def pkgCmp : List Nat → List Nat → Ordering
  | [], ys => if allZero ys then .eq else .lt
  | x :: xs, [] => if x = 0 then pkgCmp xs [] else .gt
  | x :: xs, y :: ys =>
    if x < y then .lt else if y < x then .gt else pkgCmp xs ys

/-- `packaging.version.parse(a) >= packaging.version.parse(b)` on release
component lists. -/
def pkgGe (a b : List Nat) : Bool :=
  match pkgCmp a b with
  | .lt => false
  | _ => true

/-- `zeroExtOf xs ys` holds when `xs` is a strict prefix of `ys` and all the
extra components of `ys` are zero — exactly the case where PEP 440 padding
makes the two versions equal while tuple comparison makes `xs` strictly
smaller. -/
def zeroExtOf : List Nat → List Nat → Bool
  | [], [] => false
  | [], y :: ys => allZero (y :: ys)
  | _ :: _, [] => false
  | x :: xs, y :: ys => x == y && zeroExtOf xs ys

/-- JSON-like values, used to model the raw response envelopes that the Jamf
endpoints may return (`RawResponse` in the spec). -/
inductive JVal where
  | null
  | num (n : Int)
  | str (s : String)
  | list (xs : List JVal)
  | dict (entries : List (String × JVal))

/-- Python `dict.get(key)` on a dict modelled as an association list. -/
def jGet (es : List (String × JVal)) (k : String) : Option JVal :=
  (es.find? (fun p => p.1 == k)).map (fun p => p.2)

/-- Python `int(v)`: identity on ints, digit-string parsing on strings (the
cases the endpoints produce), failure — an exception — otherwise. -/
def asInt : JVal → Option Int
  | .num n => some n
  | .str s => s.toInt?
  | _ => none

/-- The `for key in ("titles", "items", "data")` loop of `_coerce_results`:
return the first list-valued key with its length, `([], 0)` when none is. -/
def altChain (es : List (String × JVal)) : List String → List JVal × Int
  | [] => ([], 0)
  | k :: ks =>
    match jGet es k with
    | some (.list arr) => (arr, (arr.length : Int))
    | _ => altChain es ks

/-- `JamfProClient._coerce_results`: normalize a response into
`(results_list, total_count)`.  A dict with a list-valued `results` wins (its
`totalCount` passed through `int`, defaulting to the list length), otherwise
the first list-valued key among `titles`, `items`, `data`, otherwise empty; a
bare list is itself its results.  `none` models the `int()` call raising. -/
def coerce_results (data : JVal) : Option (List JVal × Int) :=
  match data with
  | .dict es =>
    match jGet es "results" with
    | some (.list results) =>
      match jGet es "totalCount" with
      | none => some (results, (results.length : Int))
      | some v => (asInt v).map (fun n => (results, n))
    | _ => some (altChain es ["titles", "items", "data"])
  | .list l => some (l, (l.length : Int))
  | _ => some ([], 0)

/-- The items part of `_coerce_results`. -/
def pageItems (v : JVal) : Option (List JVal) :=
  (coerce_results v).map (fun p => p.1)

/-- The inline envelope handling of `JamfProClient.list_inventory`, line for
line: `data.get("results", []) if isinstance(data, dict) else (data if
isinstance(data, list) else [])`. -/
def list_inventory_envelope (data : JVal) : JVal :=
  match data with
  | .dict es => (jGet es "results").getD (.list [])
  | .list l => .list l
  | _ => .list []

/-- Whether key `k` of a dict is NOT bound to a list value. -/
def notListAt (es : List (String × JVal)) (k : String) : Bool :=
  match jGet es k with
  | some (.list _) => false
  | _ => true

/-- Response shapes on which the shared coercion rule and the inline
`list_inventory` handling can be compared without either raising: dicts whose
`results` field is a list (with an `int()`-convertible `totalCount`), dicts
with no `results` field and no alternate list-valued key, bare lists, and
anything that is neither dict nor list. -/
def sharedEnvelopeShape (data : JVal) : Bool :=
  match data with
  | .dict es =>
    match jGet es "results" with
    | some (.list _) =>
      (match jGet es "totalCount" with
       | none => true
       | some (.num _) => true
       | some (.str s) => (s.toInt?).isSome
       | some _ => false)
    | some _ => false
    | none => notListAt es "titles" && notListAt es "items" && notListAt es "data"
  | _ => true

/-- Outcome of the paged collection loop: a normal return with the collected
rows and the number of page fetches performed, a Python exception (`err`), or
fuel exhaustion of the model (`fuelOut` — the Python loop has no fuel; the
termination theorem shows enough fuel always exists). -/
inductive PRes where
  | ok (rows : List JVal) (fetches : Nat)
  | err
  | fuelOut

/-- Whether the loop returned normally. -/
def PRes.isOk : PRes → Bool
  | .ok _ _ => true
  | _ => false

/-- Number of page fetches performed (0 unless `ok`). -/
def PRes.nFetches : PRes → Nat
  | .ok _ k => k
  | _ => 0

/-- Number of rows returned (0 unless `ok`). -/
def PRes.nRows : PRes → Nat
  | .ok rows _ => rows.length
  | _ => 0

/-- The `total` read on line 254 of `patch_report`:
`data.get("totalCount", len(all_rows)) if isinstance(data, dict) else
total_est`.  A dict whose `totalCount` is present but not a number would make
the later `len(all_rows) >= total` comparison raise, hence `none`. -/
def pageTotal (data : JVal) (total_est : Int) (accLen : Nat) : Option Int :=
  match data with
  | .dict es =>
    match jGet es "totalCount" with
    | none => some (accLen : Int)
    | some (.num n) => some n
    | some _ => none
  | _ => some total_est

/-- The `while True` loop of `JamfProClient.patch_report`, with the page
fetch abstracted as `fetch : page index → response body` (a non-200 status
raises before this logic runs, so `fetch` models successful responses) and an
explicit fuel argument standing in for the unbounded loop. -/
def patchLoop (fetch : Nat → JVal) : Nat → Nat → List JVal → PRes
  | 0, _, _ => .fuelOut
  | fuel + 1, page, acc =>
    match coerce_results (fetch page) with
    | none => .err
    | some (rows, total_est) =>
      if rows.isEmpty then .ok acc 1
      else
        match pageTotal (fetch page) total_est (acc ++ rows).length with
        | none => .err
        | some total =>
          if ((acc ++ rows).length : Int) ≥ total then .ok (acc ++ rows) 1
          else
            match patchLoop fetch fuel (page + 1) (acc ++ rows) with
            | .ok rows2 k => .ok rows2 (k + 1)
            | .err => .err
            | .fuelOut => .fuelOut

/-- `JamfProClient.patch_report`, starting at page 0 with no rows. -/
def patch_report (fetch : Nat → JVal) (fuel : Nat) : PRes :=
  patchLoop fetch fuel 0 []

/-- A response is well typed when neither `_coerce_results` nor the
`len >= total` comparison raises on it. -/
def wellResp (data : JVal) : Bool :=
  (coerce_results data).isSome
    && (match data with
        | .dict es =>
          (match jGet es "totalCount" with
           | none => true
           | some (.num _) => true
           | some _ => false)
        | _ => true)

/-- All pages strictly before `n` are well typed. -/
def wellUpTo (fetch : Nat → JVal) (n : Nat) : Bool :=
  (List.range n).all (fun p => wellResp (fetch p))

/-- Python 3 `round` to the nearest integer, ties to even. -/
def roundHE (q : Rat) : Int :=
  if q - (⌊q⌋ : Rat) < 1 / 2 then ⌊q⌋
  else if (1 : Rat) / 2 < q - (⌊q⌋ : Rat) then ⌊q⌋ + 1
  else if ⌊q⌋ % 2 = 0 then ⌊q⌋ else ⌊q⌋ + 1

/-- Python `round(x, 2)`: round to two decimal places, ties to even. -/
def round2 (q : Rat) : Rat := (roundHE (q * 100) : Rat) / 100

/-- One inventory record, reduced to the only field the active-ratio helper
reads: `item.get("general", {}).get("lastContactTime", "")` (missing section
or field yields `""`). -/
structure InvItem where
  lastContactTime : String
deriving DecidableEq

/-- `calculate_active_ratio`: every record counts toward `total`; a record is
active when its last-contact string is non-empty, parses (`parse` models
`datetime.fromisoformat` after the `Z` replacement, returning UTC epoch
seconds, `none` for the swallowed exception), and lies within the window:
`(now - last_dt).days <= days` with `timedelta.days` as floor division by
86400 seconds. -/
def calculate_active_ratio (parse : String → Option Int) (now : Int)
    (inventory : List InvItem) (days : Int) : Nat × Nat × Rat :=
  let total := inventory.length
  let active := inventory.countP (fun item =>
    if item.lastContactTime = "" then false
    else
      match parse item.lastContactTime with
      | none => false
      | some t => decide ((now - t).fdiv 86400 ≤ days))
  (total, active, if total ≠ 0 then (active : Rat) / (total : Rat) else 0)

/-- One row of `build_v2_overall_dataframe` (lines 451-459), keeping the
numeric columns: vendor counts, plain completion, and the active-ratio-scaled
counts and completion, where scaled counts are `int(round(count * ratio))`. -/
structure V2Row where
  hostsAll : Int
  completionAll : Rat
  adjPatched : Int
  adjOut : Int
  adjCompletion : Rat
deriving DecidableEq

/-- The numeric computation of one `build_v2_overall_dataframe` row. -/
def build_v2_overall_row (hosts_patched hosts_out : Int) (active_ratio : Rat) : V2Row :=
  let total := hosts_patched + hosts_out
  let completion := if total ≠ 0 then round2 ((hosts_patched : Rat) / (total : Rat) * 100) else 0
  let adj_patched := roundHE ((hosts_patched : Rat) * active_ratio)
  let adj_out := roundHE ((hosts_out : Rat) * active_ratio)
  let adj_total := adj_patched + adj_out
  let adj_completion :=
    if adj_total ≠ 0 then round2 ((adj_patched : Rat) / (adj_total : Rat) * 100) else 0
  ⟨total, completion, adj_patched, adj_out, adj_completion⟩

/-- One row of a per-title patch report, with the fields
`build_baseline_summary` and `filter_active_rows` read. -/
structure DeviceRow where
  computerName : String
  username : String
  deviceId : String
  operatingSystemVersion : String
  lastContactTime : String
  version : String
deriving DecidableEq

/-- `filter_active_rows`: identity when `days <= 0`, otherwise keep rows whose
`lastContactTime` parses (`parse` models `parse_last_contact`, `none` for an
unparseable or empty string) and lies within the window. -/
def filter_active_rows (parse : String → Option Int) (now : Int)
    (rows : List DeviceRow) (days : Int) : List DeviceRow :=
  if days ≤ 0 then rows
  else rows.filter (fun r =>
    match parse r.lastContactTime with
    | none => false
    | some t => decide ((now - t).fdiv 86400 ≤ days))

/-- `TitleSelection` from jamfPro_CustomPatchReport_MinVersSupport.py. -/
structure TitleSelection where
  id : String
  title : String
  min_version : String
deriving DecidableEq

/-- The summary dict produced by `build_baseline_summary`. -/
structure BaselineSummary where
  title : String
  baseline : String
  active : Nat
  compliant : Nat
  nonCompliant : Int
  compliancePct : Rat
deriving DecidableEq

/-- `build_baseline_summary`: filter to active rows when `days > 0`, classify
each row by `version_gte((r.get("version") or "").strip(), min_version)`, and
assemble the summary; the detail table is modelled by the per-row installed
version and classification flag. -/
def build_baseline_summary (pkg : Option (String → String → Option Bool))
    (parse : String → Option Int) (now : Int) (title : TitleSelection)
    (rows_all : List DeviceRow) (days : Int) :
    BaselineSummary × List (String × Bool) :=
  let rows_active := if days > 0 then filter_active_rows parse now rows_all days else rows_all
  let compliant := rows_active.countP (fun r => version_gte pkg (pyStrip r.version) title.min_version)
  let details := rows_active.map (fun r =>
    (pyStrip r.version, version_gte pkg (pyStrip r.version) title.min_version))
  let active := rows_active.length
  (⟨title.title,
    if title.min_version = "" then "(none)" else title.min_version,
    active, compliant,
    max ((active : Int) - (compliant : Int)) 0,
    if active ≠ 0 then round2 ((compliant : Rat) / (active : Rat) * 100) else 0⟩,
   details)

/-- The dedup pass at the end of `interactive_select_titles` (lines 410-414):
walk the selected list keeping the first selection for each id, tracking seen
ids (the Python `set` is modelled as a list, membership is all that is used). -/
def dedupGo (seen : List String) : List TitleSelection → List TitleSelection
  | [] => []
  | s :: rest =>
    if s.id ∈ seen then dedupGo seen rest
    else s :: dedupGo (s.id :: seen) rest

/-- The `seen`/`deduped` block of `interactive_select_titles`, starting from an
empty seen set. -/
def interactive_dedup (selected : List TitleSelection) : List TitleSelection :=
  dedupGo [] selected

/-- Python dict assignment `m[k] = v` on a dict modelled as an association
list in insertion order: replace in place, or append when absent. -/
def updAssoc {α : Type} : List (String × α) → String → α → List (String × α)
  | [], k, v => [(k, v)]
  | (k0, v0) :: rest, k, v =>
    if k0 = k then (k0, v) :: rest else (k0, v0) :: updAssoc rest k v

/-- Python `m.get(k)` on an association list. -/
def lookupA {α : Type} (l : List (String × α)) (k : String) : Option α :=
  (l.find? (fun p => p.1 == k)).map (fun p => p.2)

/-- `resolve_selections_from_file`, after the file has been read and the
catalog fetched: `all_titles` is the catalog as `(id, title)` pairs,
`file_sels` the selections parsed from the file.  `name_to_id` is the dict
comprehension over lowercased titles (last entry wins); unresolved or falsy
ids are skipped with a warning; resolved selections are appended in file
order — no deduplication happens on this path. -/
def resolve_selections_from_file (all_titles : List (String × String))
    (file_sels : List TitleSelection) : List TitleSelection :=
  if file_sels.isEmpty then []
  else
    let name_to_id := all_titles.foldl (fun m t => updAssoc m (pyLower t.2) t.1) []
    file_sels.foldl (fun resolved s =>
      match lookupA name_to_id (pyLower s.title) with
      | none => resolved
      | some tid =>
        if tid = "" then resolved
        else resolved ++ [⟨tid, s.title, s.min_version⟩]) []

/-- The global default block of `main` (lines 608-611): when the
`--global-min-version` flag is non-empty, every selection whose
`min_version` is falsy or whitespace-only gets the stripped global default;
all other selections are untouched. -/
def applyGlobalDefault (g : String) (sels : List TitleSelection) : List TitleSelection :=
  if g = "" then sels
  else sels.map (fun s =>
    if s.min_version = "" ∨ pyStrip s.min_version = "" then
      { s with min_version := pyStrip g }
    else s)

/-- One CSV row of a compliance report, reduced to the columns
`process_compliance_reports` reads. -/
structure SnapRow where
  serial : String
  computer : String
  failed : Int
deriving DecidableEq

/-- The per-serial compliance history: serial → (date → failed count), both
dicts in insertion order. -/
abbrev History := List (String × List (String × Int))

/-- One `compliance_history[serial][file_date] = failed_count` assignment. -/
def histInsert (hist : History) (serial date : String) (v : Int) : History :=
  match lookupA hist serial with
  | some h => updAssoc hist serial (updAssoc h date v)
  | none => hist ++ [(serial, [(date, v)])]

/-- The history-building loop of `process_compliance_reports`: every row of
every dated file, in order. -/
def buildHistory (files : List (String × List SnapRow)) : History :=
  files.foldl (fun hist fd =>
    fd.2.foldl (fun h row => histInsert h row.serial fd.1 row.failed) hist) []

/-- The `computer_names[serial] = computer` assignments. -/
def buildNames (files : List (String × List SnapRow)) : List (String × String) :=
  files.foldl (fun ns fd =>
    fd.2.foldl (fun ns row => updAssoc ns row.serial row.computer) ns) []

/-- Lexicographic strict order on strings by code point, as Python compares
strings. -/
def strLtB (a b : String) : Bool :=
  match charListCmp a.data b.data with
  | .lt => true
  | _ => false

/-- Insert into a sorted list (ascending). -/
def insertSorted (d : String) : List String → List String
  | [] => [d]
  | x :: xs => if strLtB d x then d :: x :: xs else x :: insertSorted d xs

/-- Python `sorted` on strings (insertion sort; the input below is
duplicate-free so stability is irrelevant). -/
def sortStrings (l : List String) : List String := l.foldr insertSorted []

/-- The distinct date keys occurring in a history, in first-seen order (the
Python `set().union(*...)` before sorting). -/
def collectDates (hist : History) : List String :=
  hist.foldl (fun acc p =>
    p.2.foldl (fun acc dv => if dv.1 ∈ acc then acc else acc ++ [dv.1]) acc) []

/-- `dates = sorted(set().union(*[h.keys() for h in ...]))`. -/
def trendDates (files : List (String × List SnapRow)) : List String :=
  sortStrings (collectDates (buildHistory files))

/-- One row of the Trend Analysis sheet: a cell is `none` where the pandas
DataFrame holds `np.nan` (entity absent on that date). -/
structure TrendRow where
  serial : String
  computer : String
  cells : List (Option Rat)
deriving DecidableEq

/-- The integer failure counts live in rational cells (pandas floats). -/
def ratOfInt (v : Int) : Rat := (v : Rat)

/-- The per-entity trend row: `history.get(date, np.nan)` per date column. -/
def entityRow (names : List (String × String)) (dates : List String)
    (p : String × List (String × Int)) : TrendRow :=
  ⟨p.1, (lookupA names p.1).getD "N/A",
   dates.map (fun d => (lookupA p.2 d).map ratOfInt)⟩

/-- The synthetic averages row: per date, `np.mean` of the values of the
entities present on that date, `np.nan` when none is. -/
def averageRow (hist : History) (dates : List String) : TrendRow :=
  ⟨"Average Failed Checks", "",
   dates.map (fun d =>
     let vals : List Int := hist.filterMap (fun p => lookupA p.2 d)
     if vals.isEmpty then none
     else some ((vals.map ratOfInt).sum / (vals.length : Rat)))⟩

/-- The trend-analysis table built by `process_compliance_reports` from the
selected dated files: one row per serial in discovery order, then the single
trailing averages row. -/
def process_compliance_reports (files : List (String × List SnapRow)) : List TrendRow :=
  (buildHistory files).map (entityRow (buildNames files) (trendDates files))
    ++ [averageRow (buildHistory files) (trendDates files)]

/-- Arithmetic mean of a list of values, `none` when empty — the
specification-level description of one averages-row cell. -/
def mkMean (col : List Rat) : Option Rat :=
  if col.isEmpty then none else some (col.sum / (col.length : Rat))

/-- Whether some file dated `d` contains a row for serial `s`. -/
def memRecord (files : List (String × List SnapRow)) (s d : String) : Bool :=
  files.any (fun fd => fd.1 == d && fd.2.any (fun row => row.serial == s))

/-- Default row used with `List.getLastD`. -/
def defaultTrendRow : TrendRow := ⟨"", "", []⟩

/-- Page-fetch behaviour whose first page is already empty. -/
def fetchW : Nat → JVal := fun _ => .dict [("results", .list [])]

/-- Page-fetch behaviour for the iteration-bound counterexample: ten pages of
one row each, every response reporting `totalCount` 400, then an empty page. -/
def fetchCex : Nat → JVal := fun p =>
  if p < 10 then .dict [("results", .list [.null]), ("totalCount", .num 400)]
  else .dict [("results", .list [])]

/-- Concrete inventory: 25 recently-seen records and 75 stale ones. -/
def invC3 : List InvItem := List.replicate 25 ⟨"recent"⟩ ++ List.replicate 75 ⟨"old"⟩

/-- Concrete timestamp parser for the scenarios: `"recent"` parses to epoch 0,
everything else fails to parse. -/
def parseC3 : String → Option Int := fun s => if s = "recent" then some 0 else none

/-- Concrete catalog with a single title. -/
def catalogC7 : List (String × String) := [("id1", "Chrome")]

/-- A titles file listing the same catalog title twice with two baselines. -/
def fileSelsC7 : List TitleSelection := [⟨"", "Chrome", "1.0"⟩, ⟨"", "Chrome", "2.0"⟩]

/-- Selections with one explicit baseline and one whitespace-only baseline. -/
def selsC8 : List TitleSelection := [⟨"id1", "A", "23.008.20458"⟩, ⟨"id2", "B", "  "⟩]

/-- Two dated snapshots: SN1 present in both (5 then 4 failures), SN2 present
only in the first (3 failures). -/
def filesC9 : List (String × List SnapRow) :=
  [("2025-01-01", [⟨"SN1", "Mac1", 5⟩, ⟨"SN2", "Mac2", 3⟩]),
   ("2025-02-01", [⟨"SN1", "Mac1", 4⟩])]

/-- The trend row the builder produces for SN2 on `filesC9`. -/
def rowSN2 : TrendRow := ⟨"SN2", "Mac2", [some 3, none]⟩

/-- A response envelope carrying its items only under the alternate key
`titles`. -/
def envAlt : JVal := .dict [("titles", .list [.num 1])]

/-- A well-shaped results-dict envelope. -/
def envW : JVal := .dict [("results", .list [.num 1]), ("totalCount", .num 5)]

/-- C1: for every device list, baseline selection and activity window, the
summary of `build_baseline_summary` has a nonnegative non-compliant count,
its compliant and non-compliant counts sum to the active-device count, and
the active-device count is the number of records surviving the activity
filter. -/
theorem c1_baseline_summary_invariant (pkg : Option (String → String → Option Bool))
    (parse : String → Option Int) (now : Int) (title : TitleSelection)
    (rows : List DeviceRow) (days : Int) :
    0 ≤ ((build_baseline_summary pkg parse now title rows days).1).nonCompliant
    ∧ (((build_baseline_summary pkg parse now title rows days).1).compliant : Int)
        + ((build_baseline_summary pkg parse now title rows days).1).nonCompliant
        = (((build_baseline_summary pkg parse now title rows days).1).active : Int)
    ∧ ((build_baseline_summary pkg parse now title rows days).1).active
        = (if days > 0 then filter_active_rows parse now rows days else rows).length := by
  have hc : (if days > 0 then filter_active_rows parse now rows days else rows).countP
        (fun r => version_gte pkg (pyStrip r.version) title.min_version)
      ≤ (if days > 0 then filter_active_rows parse now rows days else rows).length :=
    List.countP_le_length _
  have h1 : ((build_baseline_summary pkg parse now title rows days).1).nonCompliant
      = max (((if days > 0 then filter_active_rows parse now rows days else rows).length : Int)
          - ((if days > 0 then filter_active_rows parse now rows days else rows).countP
              (fun r => version_gte pkg (pyStrip r.version) title.min_version) : Int)) 0 := rfl
  have h2 : ((build_baseline_summary pkg parse now title rows days).1).compliant
      = (if days > 0 then filter_active_rows parse now rows days else rows).countP
          (fun r => version_gte pkg (pyStrip r.version) title.min_version) := rfl
  have h3 : ((build_baseline_summary pkg parse now title rows days).1).active
      = (if days > 0 then filter_active_rows parse now rows days else rows).length := rfl
  refine ⟨?_, ?_, h3⟩
  · rw [h1]; exact le_max_right _ _
  · rw [h1, h2, h3]
    have hcast : ((if days > 0 then filter_active_rows parse now rows days else rows).countP
          (fun r => version_gte pkg (pyStrip r.version) title.min_version) : Int)
        ≤ ((if days > 0 then filter_active_rows parse now rows days else rows).length : Int) := by
      exact_mod_cast hc
    omega

/-- C2 counterexample: the baseline `" "` is a non-empty string, yet
`version_gte("", " ")` returns `true`, because the baseline normalizes to the
empty string and an empty normalized baseline means no floor. -/
theorem c2_counterexample : (" " : String) ≠ "" ∧ version_gte none "" " " = true :=
  ⟨by decide, by decide⟩

/-- C2 amended: for every baseline whose NORMALIZED form is non-empty,
`version_gte` with an empty candidate returns false, whether or not a
semantic-version library is available. -/
theorem c2_empty_candidate (pkg : Option (String → String → Option Bool))
    (b : String) (hb : normalize_version b ≠ "") : version_gte pkg "" b = false := by
  unfold version_gte
  rw [if_neg hb]
  have h0 : normalize_version "" = "" := rfl
  rw [h0]
  simp

/-- Witness for `c2_empty_candidate` at the concrete baseline `"1.0"`. -/
theorem c2_witness : normalize_version "1.0" ≠ "" ∧ version_gte none "" "1.0" = false :=
  ⟨by decide, c2_empty_candidate none "1.0" (by decide)⟩

/-- The ratio component of `calculate_active_ratio`, expressed through the
total and active components. -/
theorem calculate_active_ratio_ratio (parse : String → Option Int) (now : Int)
    (inventory : List InvItem) (days : Int) :
    (calculate_active_ratio parse now inventory days).2.2
    = if (calculate_active_ratio parse now inventory days).1 ≠ 0 then
        (((calculate_active_ratio parse now inventory days).2.1 : Rat))
          / (((calculate_active_ratio parse now inventory days).1 : Rat))
      else 0 := rfl

/-- Evaluation of the three scaled quantities of the C3 scenario. -/
theorem c3_roundHE_forty : roundHE ((40 : Rat) * (1 / 4)) = 10 := by
  norm_num [roundHE]

/-- Python `round(2.5)` is 2 (ties to even). -/
theorem c3_roundHE_ten : roundHE ((10 : Rat) * (1 / 4)) = 2 := by
  norm_num [roundHE]

/-- The concrete active ratio of the C3 scenario. -/
theorem c3_ratio_value : calculate_active_ratio parseC3 0 invC3 30 = (100, 25, 1 / 4) := by
  have h1 : (calculate_active_ratio parseC3 0 invC3 30).1 = 100 := by decide
  have h2 : (calculate_active_ratio parseC3 0 invC3 30).2.1 = 25 := by decide
  have h3 : (calculate_active_ratio parseC3 0 invC3 30).2.2 = 1 / 4 := by
    rw [calculate_active_ratio_ratio, h1, h2]
    norm_num
  exact Prod.ext h1 (Prod.ext h2 h3)

/-- C3 counterexample: in fleet-ratio mode with total 100 and active 25 the
ratio is 0.25, but scaling `hostsOutOfDate = 10` gives
`round(10 * 0.25) = round(2.5) = 2` under Python's half-to-even rounding,
not 3 as claimed. -/
theorem c3_counterexample :
    (calculate_active_ratio parseC3 0 invC3 30).2.2 = 1 / 4
    ∧ (build_v2_overall_row 40 10 (1 / 4)).adjOut = 2
    ∧ (build_v2_overall_row 40 10 (1 / 4)).adjOut ≠ 3 := by
  have hout : (build_v2_overall_row 40 10 (1 / 4)).adjOut = roundHE ((10 : Rat) * (1 / 4)) := rfl
  refine ⟨by rw [calculate_active_ratio_ratio]; norm_num [(by decide :
      (calculate_active_ratio parseC3 0 invC3 30).1 = 100), (by decide :
      (calculate_active_ratio parseC3 0 invC3 30).2.1 = 25)], ?_, ?_⟩
  · rw [hout, c3_roundHE_ten]
  · rw [hout, c3_roundHE_ten]; decide

/-- C3 amended: total 100, active 25 gives ratio 0.25; scaling patched 40 and
out-of-date 10 gives `adj_patched = 10` and `adj_out = round(2.5) = 2` (ties
to even), so `adj_completion = round(10/12*100, 2) = 83.33`. -/
theorem c3_ratio_scaling :
    calculate_active_ratio parseC3 0 invC3 30 = (100, 25, 1 / 4)
    ∧ (build_v2_overall_row 40 10 (1 / 4)).adjPatched = 10
    ∧ (build_v2_overall_row 40 10 (1 / 4)).adjOut = 2
    ∧ (build_v2_overall_row 40 10 (1 / 4)).adjCompletion = round2 ((10 : Rat) / 12 * 100)
    ∧ round2 ((10 : Rat) / 12 * 100) = 8333 / 100 := by
  have hpat : (build_v2_overall_row 40 10 (1 / 4)).adjPatched = roundHE ((40 : Rat) * (1 / 4)) := rfl
  have hout : (build_v2_overall_row 40 10 (1 / 4)).adjOut = roundHE ((10 : Rat) * (1 / 4)) := rfl
  have hcomp : (build_v2_overall_row 40 10 (1 / 4)).adjCompletion
      = (if roundHE ((40 : Rat) * (1 / 4)) + roundHE ((10 : Rat) * (1 / 4)) ≠ 0 then
          round2 (((roundHE ((40 : Rat) * (1 / 4)) : Int) : Rat)
            / (((roundHE ((40 : Rat) * (1 / 4)) + roundHE ((10 : Rat) * (1 / 4)) : Int)) : Rat)
            * 100)
        else 0) := rfl
  have h5 : round2 ((10 : Rat) / 12 * 100) = 8333 / 100 := by
    norm_num [round2, roundHE]
  refine ⟨c3_ratio_value, ?_, ?_, ?_, h5⟩
  · rw [hpat, c3_roundHE_forty]
  · rw [hout, c3_roundHE_ten]
  · rw [hcomp, c3_roundHE_forty, c3_roundHE_ten, h5]
    norm_num [round2, roundHE]

/-- C8: a non-empty global default baseline is assigned exactly to the
selections whose `min_version` strips to the empty string (empty or
whitespace-only); every selection with an explicit non-empty baseline is left
unchanged. -/
theorem c8_global_default (g : String) (sels : List TitleSelection) (hg : g ≠ "")
    (i : Nat) (s : TitleSelection) (hs : sels[i]? = some s) :
    (pyStrip s.min_version = "" →
      (applyGlobalDefault g sels)[i]? = some { s with min_version := pyStrip g })
    ∧ (pyStrip s.min_version ≠ "" → (applyGlobalDefault g sels)[i]? = some s) := by
  unfold applyGlobalDefault
  rw [if_neg hg, List.getElem?_map, hs]
  constructor
  · intro h
    simp only [Option.map_some']
    rw [if_pos (Or.inr h)]
  · intro h
    have hne : ¬(s.min_version = "" ∨ pyStrip s.min_version = "") := by
      rintro (h1 | h2)
      · exact h (by rw [h1]; rfl)
      · exact h h2
    simp only [Option.map_some']
    rw [if_neg hne]

/-- Witness for `c8_global_default` on concrete selections: the explicit
baseline `"23.008.20458"` survives, the whitespace-only baseline receives the
global default. -/
theorem c8_witness :
    ("1.0" : String) ≠ ""
    ∧ selsC8[0]? = some ⟨"id1", "A", "23.008.20458"⟩
    ∧ pyStrip "23.008.20458" ≠ ""
    ∧ (applyGlobalDefault "1.0" selsC8)[0]? = some ⟨"id1", "A", "23.008.20458"⟩
    ∧ (applyGlobalDefault "1.0" selsC8)[1]? = some ⟨"id2", "B", "1.0"⟩ :=
  ⟨by decide, by decide, by decide,
   (c8_global_default "1.0" selsC8 (by decide) 0 ⟨"id1", "A", "23.008.20458"⟩ (by decide)).2
     (by decide),
   by decide⟩

/-- C10: `calculate_active_ratio` counts every record toward the total;
records with a missing or unparseable `lastContactTime` are never active, so
the active count is bounded by the count of parseable records; the ratio lies
in `[0, 1]` and is 0 on an empty inventory. -/
theorem c10_active_ratio_bounds (parse : String → Option Int) (now : Int)
    (inventory : List InvItem) (days : Int) :
    (calculate_active_ratio parse now inventory days).1 = inventory.length
    ∧ (calculate_active_ratio parse now inventory days).2.1 ≤ inventory.length
    ∧ (calculate_active_ratio parse now inventory days).2.1
        ≤ inventory.countP (fun it => !(it.lastContactTime == "") && (parse it.lastContactTime).isSome)
    ∧ 0 ≤ (calculate_active_ratio parse now inventory days).2.2
    ∧ (calculate_active_ratio parse now inventory days).2.2 ≤ 1
    ∧ (inventory.length = 0 → (calculate_active_ratio parse now inventory days).2.2 = 0) := by
  have h21 : (calculate_active_ratio parse now inventory days).2.1
      = inventory.countP (fun item =>
          if item.lastContactTime = "" then false
          else
            match parse item.lastContactTime with
            | none => false
            | some t => decide ((now - t).fdiv 86400 ≤ days)) := rfl
  have h22 : (calculate_active_ratio parse now inventory days).2.2
      = (if inventory.length ≠ 0 then
          ((inventory.countP (fun item =>
              if item.lastContactTime = "" then false
              else
                match parse item.lastContactTime with
                | none => false
                | some t => decide ((now - t).fdiv 86400 ≤ days)) : Rat)
            / (inventory.length : Rat))
        else 0) := rfl
  have hlen : (calculate_active_ratio parse now inventory days).2.1 ≤ inventory.length := by
    rw [h21]; exact List.countP_le_length _
  refine ⟨rfl, hlen, ?_, ?_, ?_, ?_⟩
  · rw [h21]
    apply List.countP_mono_left
    intro it _ hp
    by_cases he : it.lastContactTime = ""
    · rw [if_pos he] at hp; exact absurd hp (by simp)
    · rw [if_neg he] at hp
      cases hps : parse it.lastContactTime with
      | none => rw [hps] at hp; exact absurd hp (by simp)
      | some t => simp [he, hps]
  · rw [h22]
    by_cases ht : inventory.length ≠ 0
    · rw [if_pos ht]
      apply div_nonneg
      · exact Nat.cast_nonneg _
      · exact Nat.cast_nonneg _
    · rw [if_neg ht]
  · rw [h22]
    by_cases ht : inventory.length ≠ 0
    · rw [if_pos ht]
      rw [div_le_one (by exact_mod_cast Nat.pos_of_ne_zero (fun h => ht h))]
      rw [h21] at hlen
      exact_mod_cast hlen
    · rw [if_neg ht]; norm_num
  · intro h0
    rw [h22, if_neg (by omega)]

/-- Witness for `c10_active_ratio_bounds` on the empty inventory: the ratio
is 0. -/
theorem c10_witness :
    ([] : List InvItem).length = 0
    ∧ (calculate_active_ratio parseC3 0 [] 30).2.2 = 0 :=
  ⟨rfl, (c10_active_ratio_bounds parseC3 0 [] 30).2.2.2.2.2 rfl⟩

/-- The alternate-key loop skips a key that is not bound to a list. -/
theorem altChain_skip (es : List (String × JVal)) (k : String) (ks : List String)
    (h : notListAt es k = true) : altChain es (k :: ks) = altChain es ks := by
  unfold notListAt at h
  simp only [altChain]
  cases hk : jGet es k with
  | none => rfl
  | some v =>
    cases v with
    | list xs => rw [hk] at h; simp at h
    | null => rfl
    | num n => rfl
    | str s => rfl
    | dict es2 => rfl

/-- C5 amended: on every shape where neither side raises — dicts with a
list-valued `results`, dicts with neither `results` nor an alternate
list-valued key, bare lists, and non-dict/non-list values — the inline
envelope handling of `list_inventory` extracts exactly the items that
`_coerce_results` extracts.  (The two differ on alternate-key dicts, see the
counterexample.) -/
theorem c5_list_inventory_coercion (data : JVal) (h : sharedEnvelopeShape data = true) :
    (coerce_results data).map (fun p => JVal.list p.1) = some (list_inventory_envelope data) := by
  cases data with
  | null => rfl
  | num n => rfl
  | str s => rfl
  | list l => rfl
  | dict es =>
    simp only [sharedEnvelopeShape] at h
    simp only [coerce_results, list_inventory_envelope]
    cases hr : jGet es "results" with
    | none =>
      rw [hr] at h
      simp only [Bool.and_eq_true] at h
      obtain ⟨⟨h1, h2⟩, h3⟩ := h
      rw [altChain_skip es "titles" _ h1, altChain_skip es "items" _ h2,
        altChain_skip es "data" _ h3]
      rfl
    | some v =>
      rw [hr] at h
      cases v with
      | list rs =>
        cases htc : jGet es "totalCount" with
        | none => rfl
        | some w =>
          rw [htc] at h
          cases w with
          | num n => rfl
          | str s2 =>
            obtain ⟨n, hn⟩ := Option.isSome_iff_exists.mp h
            simp only [asInt]
            rw [hn]
            rfl
          | null => simp at h
          | list xs => simp at h
          | dict es2 => simp at h
      | null => simp at h
      | num n => simp at h
      | str s2 => simp at h
      | dict es2 => simp at h

/-- C5 counterexample: on a dict carrying its items only under the alternate
key `titles`, `_coerce_results` extracts the items but the inline handling in
`list_inventory` yields an empty page — the two coercions are not
extensionally equal on every RawResponse shape. -/
theorem c5_counterexample :
    (coerce_results envAlt).map (fun p => JVal.list p.1) = some (.list [.num 1])
    ∧ list_inventory_envelope envAlt = .list []
    ∧ (coerce_results envAlt).map (fun p => JVal.list p.1)
        ≠ some (list_inventory_envelope envAlt) := by
  refine ⟨rfl, rfl, ?_⟩
  intro h
  have h2 : some (JVal.list [JVal.num 1]) = some (JVal.list []) := h
  simp at h2

/-- Witness for `c5_list_inventory_coercion` on a well-shaped results-dict. -/
theorem c5_witness :
    sharedEnvelopeShape envW = true
    ∧ (coerce_results envW).map (fun p => JVal.list p.1) = some (list_inventory_envelope envW) :=
  ⟨rfl, c5_list_inventory_coercion envW rfl⟩

/-- Elements surviving `dedupGo` avoid the seen set, and their ids are
duplicate-free. -/
theorem dedupGo_not_seen_and_nodup (l : List TitleSelection) : ∀ seen : List String,
    (∀ s ∈ dedupGo seen l, s.id ∉ seen) ∧ ((dedupGo seen l).map (fun s => s.id)).Nodup := by
  induction l with
  | nil =>
    intro seen
    constructor
    · intro s hs; simp [dedupGo] at hs
    · simp [dedupGo]
  | cons s rest ih =>
    intro seen
    unfold dedupGo
    by_cases hmem : s.id ∈ seen
    · rw [if_pos hmem]; exact ih seen
    · rw [if_neg hmem]
      obtain ⟨ihn, ihd⟩ := ih (s.id :: seen)
      constructor
      · intro x hx
        rcases List.mem_cons.mp hx with hx1 | hx2
        · rw [hx1]; exact hmem
        · intro hxs
          exact ihn x hx2 (List.mem_cons_of_mem _ hxs)
      · rw [List.map_cons, List.nodup_cons]
        constructor
        · intro hin
          obtain ⟨x, hx, hxid⟩ := List.mem_map.mp hin
          exact ihn x hx (hxid ▸ List.mem_cons_self _ _)
        · exact ihd

/-- `dedupGo` returns a sublist of its input (order preserved, only
duplicates dropped). -/
theorem dedupGo_sublist (l : List TitleSelection) : ∀ seen, (dedupGo seen l).Sublist l := by
  induction l with
  | nil => intro seen; simp [dedupGo]
  | cons s rest ih =>
    intro seen
    unfold dedupGo
    by_cases hmem : s.id ∈ seen
    · rw [if_pos hmem]; exact List.Sublist.cons s (ih seen)
    · rw [if_neg hmem]; exact List.Sublist.cons₂ s (ih (s.id :: seen))

/-- For an id outside the seen set, the first match in the deduplicated list
is the first match in the original list. -/
theorem dedupGo_find (l : List TitleSelection) : ∀ (seen : List String) (i : String),
    i ∉ seen →
    (dedupGo seen l).find? (fun s => s.id == i) = l.find? (fun s => s.id == i) := by
  induction l with
  | nil => intro seen i _; rfl
  | cons s rest ih =>
    intro seen i hi
    unfold dedupGo
    by_cases hmem : s.id ∈ seen
    · rw [if_pos hmem]
      have hne : (s.id == i) = false := by
        rw [beq_eq_false_iff_ne]
        intro he
        exact hi (he ▸ hmem)
      rw [ih seen i hi, List.find?_cons, hne]
    · rw [if_neg hmem]
      by_cases hpi : (s.id == i) = true
      · rw [List.find?_cons, List.find?_cons, hpi]
      · have hpif : (s.id == i) = false := by
          cases hb : (s.id == i)
          · rfl
          · exact absurd hb hpi
        rw [List.find?_cons, List.find?_cons, hpif]
        simp only [Bool.false_eq_true, if_false]
        apply ih
        intro hin
        rcases List.mem_cons.mp hin with h1 | h2
        · exact (beq_eq_false_iff_ne.mp hpif) h1.symm
        · exact hi h2

/-- C7 amended: the dedup pass of the interactive picker produces a selection
set with pairwise-distinct identifiers, keeping the first occurrence of each
identifier in input order (a sublist, such that the first selection found for
any id is the same before and after).  The titles-file path performs no such
dedup — see the counterexample. -/
theorem c7_interactive_dedup (sel : List TitleSelection) :
    ((interactive_dedup sel).map (fun s => s.id)).Nodup
    ∧ (interactive_dedup sel).Sublist sel
    ∧ ∀ i : String, (interactive_dedup sel).find? (fun s => s.id == i)
        = sel.find? (fun s => s.id == i) := by
  refine ⟨(dedupGo_not_seen_and_nodup sel []).2, dedupGo_sublist sel [], ?_⟩
  intro i
  exact dedupGo_find sel [] i (by simp)

/-- C7 counterexample: a titles file listing the same title twice resolves to
two selections with the same identifier — the file/CSV construction path does
not deduplicate by identifier. -/
theorem c7_counterexample :
    resolve_selections_from_file catalogC7 fileSelsC7
      = [⟨"id1", "Chrome", "1.0"⟩, ⟨"id1", "Chrome", "2.0"⟩]
    ∧ ¬ ((resolve_selections_from_file catalogC7 fileSelsC7).map (fun s => s.id)).Nodup :=
  ⟨by decide, by decide⟩

/-- A digit character is not stripped whitespace. -/
theorem digit_not_space {c : Char} (h : isDigitChar c = true) : isPySpace c = false := by
  simp only [isDigitChar, Bool.and_eq_true, decide_eq_true_eq] at h
  simp only [isPySpace, Bool.or_eq_false_iff, decide_eq_false_iff_not]
  omega

/-- Unfolding equation of `pkgParseAux` on the empty input. -/
theorem pkgParseAux_nil (run : List Char) :
    pkgParseAux run [] = some [digitsToNat run.reverse] := rfl

/-- Unfolding equation of `pkgParseAux` on a cons. -/
theorem pkgParseAux_cons (run : List Char) (c : Char) (rest : List Char) :
    pkgParseAux run (c :: rest)
    = (if isDigitChar c then pkgParseAux (c :: run) rest
       else if c = '.' then
         (match rest with
          | [] => none
          | c2 :: rest2 =>
            if isDigitChar c2 then
              (pkgParseAux [c2] rest2).map (fun ns => digitsToNat run.reverse :: ns)
            else none)
       else none) := by
  cases rest <;> rfl

/-- Unfolding equation of `pkgParseAux` at a trailing dot. -/
theorem pkgParseAux_dot_nil (run : List Char) : pkgParseAux run ['.'] = none := by
  rfl

/-- Unfolding equation of `pkgParseAux` at an inner dot. -/
theorem pkgParseAux_dot (run : List Char) (c2 : Char) (rest2 : List Char) :
    pkgParseAux run ('.' :: c2 :: rest2)
    = (if isDigitChar c2 then
        (pkgParseAux [c2] rest2).map (fun ns => digitsToNat run.reverse :: ns)
      else none) := by
  cases rest2 <;> rfl

/-- Unfolding equation of `tokenizeAux` between runs. -/
theorem tokenizeAux_none_cons (c : Char) (rest : List Char) :
    tokenizeAux none (c :: rest)
    = (if isDigitChar c then tokenizeAux (some (true, [c])) rest
       else if isAlphaChar c then tokenizeAux (some (false, [c])) rest
       else tokenizeAux none rest) := by
  cases rest <;> rfl

/-- Unfolding equation of `tokenizeAux` inside a digit run. -/
theorem tokenizeAux_digit_cons (run : List Char) (c : Char) (rest : List Char) :
    tokenizeAux (some (true, run)) (c :: rest)
    = (if isDigitChar c then tokenizeAux (some (true, c :: run)) rest
       else if isAlphaChar c then
         Tok.num (digitsToNat run.reverse) :: tokenizeAux (some (false, [c])) rest
       else Tok.num (digitsToNat run.reverse) :: tokenizeAux none rest) := by
  cases rest <;> rfl

/-- Every character of a string accepted by the numeric-dotted parser is a
digit or a dot. -/
theorem pkgParseAux_chars : ∀ (n : Nat) (rest : List Char), rest.length ≤ n →
    ∀ (run : List Char) (ns : List Nat), pkgParseAux run rest = some ns →
    ∀ c ∈ rest, isDigitChar c = true ∨ c = '.' := by
  intro n
  induction n with
  | zero =>
    intro rest hlen run ns _ c hc
    have hnil : rest = [] := List.eq_nil_of_length_eq_zero (Nat.le_zero.mp hlen)
    subst hnil
    simp at hc
  | succ n ih =>
    intro rest hlen run ns hp c hc
    cases rest with
    | nil => simp at hc
    | cons c1 rest1 =>
      by_cases hd : isDigitChar c1 = true
      · rw [pkgParseAux_cons, if_pos hd] at hp
        rcases List.mem_cons.mp hc with h1 | h2
        · left; rw [h1]; exact hd
        · exact ih rest1 (by simp only [List.length_cons] at hlen; omega) (c1 :: run) ns hp c h2
      · by_cases hdot : c1 = '.'
        · subst hdot
          cases rest1 with
          | nil => rw [pkgParseAux_dot_nil] at hp; exact absurd hp (by simp)
          | cons c2 rest2 =>
            rw [pkgParseAux_dot] at hp
            by_cases hd2 : isDigitChar c2 = true
            · rw [if_pos hd2] at hp
              rcases hmap : pkgParseAux [c2] rest2 with _ | ns2
              · rw [hmap] at hp; exact absurd hp (by simp)
              · rcases List.mem_cons.mp hc with h1 | h2
                · right; exact h1
                · rcases List.mem_cons.mp h2 with h3 | h4
                  · left; rw [h3]; exact hd2
                  · exact ih rest2 (by simp only [List.length_cons] at hlen; omega)
                      [c2] ns2 hmap c h4
            · rw [if_neg hd2] at hp; exact absurd hp (by simp)
        · rw [pkgParseAux_cons, if_neg hd, if_neg hdot] at hp; exact absurd hp (by simp)

/-- Characters of a parsed numeric-dotted string are digits or dots. -/
theorem pkgParse_chars {cs : List Char} {xs : List Nat} (h : pkgParse cs = some xs) :
    ∀ c ∈ cs, isDigitChar c = true ∨ c = '.' := by
  cases cs with
  | nil => simp [pkgParse] at h
  | cons c1 rest =>
    simp only [pkgParse] at h
    by_cases hd : isDigitChar c1 = true
    · rw [if_pos hd] at h
      intro c hc
      rcases List.mem_cons.mp hc with h1 | h2
      · left; rw [h1]; exact hd
      · exact pkgParseAux_chars rest.length rest (le_refl _) [c1] xs h c h2
    · rw [if_neg hd] at h; exact absurd h (by simp)

/-- On a string the numeric-dotted parser accepts, the fallback tokenizer
produces exactly the numeric tokens of the parsed components. -/
theorem tokenizeAux_pkgParseAux : ∀ (n : Nat) (rest : List Char), rest.length ≤ n →
    ∀ (run : List Char) (ns : List Nat), pkgParseAux run rest = some ns →
    tokenizeAux (some (true, run)) rest = ns.map Tok.num := by
  intro n
  induction n with
  | zero =>
    intro rest hlen run ns hp
    have hnil : rest = [] := List.eq_nil_of_length_eq_zero (Nat.le_zero.mp hlen)
    subst hnil
    rw [pkgParseAux_nil] at hp
    simp only [Option.some.injEq] at hp
    subst hp
    rfl
  | succ n ih =>
    intro rest hlen run ns hp
    cases rest with
    | nil =>
      rw [pkgParseAux_nil] at hp
      simp only [Option.some.injEq] at hp
      subst hp
      rfl
    | cons c1 rest1 =>
      by_cases hd : isDigitChar c1 = true
      · rw [pkgParseAux_cons, if_pos hd] at hp
        rw [tokenizeAux_digit_cons, if_pos hd]
        exact ih rest1 (by simp only [List.length_cons] at hlen; omega) (c1 :: run) ns hp
      · by_cases hdot : c1 = '.'
        · subst hdot
          cases rest1 with
          | nil => rw [pkgParseAux_dot_nil] at hp; exact absurd hp (by simp)
          | cons c2 rest2 =>
            rw [pkgParseAux_dot] at hp
            by_cases hd2 : isDigitChar c2 = true
            · rw [if_pos hd2] at hp
              rcases hmap : pkgParseAux [c2] rest2 with _ | ns2
              · rw [hmap] at hp; exact absurd hp (by simp)
              · rw [hmap] at hp
                simp only [Option.map_some', Option.some.injEq] at hp
                subst hp
                rw [tokenizeAux_digit_cons,
                  if_neg (by decide : ¬(isDigitChar '.' = true)),
                  if_neg (by decide : ¬(isAlphaChar '.' = true)),
                  tokenizeAux_none_cons, if_pos hd2, List.map_cons]
                congr 1
                exact ih rest2 (by simp only [List.length_cons] at hlen; omega) [c2] ns2 hmap
            · rw [if_neg hd2] at hp; exact absurd hp (by simp)
        · rw [pkgParseAux_cons, if_neg hd, if_neg hdot] at hp; exact absurd hp (by simp)

/-- The fallback tokenizer agrees with the numeric-dotted parser: a parsed
string tokenizes to its numeric components. -/
theorem tokenize_pkgParse {cs : List Char} {xs : List Nat} (h : pkgParse cs = some xs) :
    tokenize cs = xs.map Tok.num := by
  cases cs with
  | nil => simp [pkgParse] at h
  | cons c1 rest =>
    simp only [pkgParse] at h
    by_cases hd : isDigitChar c1 = true
    · rw [if_pos hd] at h
      unfold tokenize
      rw [tokenizeAux_none_cons, if_pos hd]
      exact tokenizeAux_pkgParseAux rest.length rest (le_refl _) [c1] xs h
    · rw [if_neg hd] at h; exact absurd h (by simp)

/-- The paren-removal pass is the identity on strings without `(`. -/
theorem removeParens_eq_self : ∀ cs : List Char, (∀ c ∈ cs, c ≠ '(') →
    removeParens cs = cs := by
  intro cs
  unfold removeParens
  induction cs with
  | nil => intro _; rfl
  | cons c rest ih =>
    intro h
    simp only [removeParensAux]
    rw [if_neg (h c (List.mem_cons_self _ _))]
    rw [ih (fun c2 hc2 => h c2 (List.mem_cons_of_mem _ hc2))]

/-- `dropWhile` is the identity when the predicate holds nowhere. -/
theorem dropWhile_all_false {p : Char → Bool} : ∀ l : List Char,
    (∀ c ∈ l, p c = false) → l.dropWhile p = l := by
  intro l h
  cases l with
  | nil => rfl
  | cons c rest =>
    rw [List.dropWhile_cons, h c (List.mem_cons_self _ _)]
    simp

/-- Stripping is the identity on strings with no whitespace at all. -/
theorem pyStripL_eq_self {cs : List Char} (h : ∀ c ∈ cs, isPySpace c = false) :
    pyStripL cs = cs := by
  unfold pyStripL
  rw [dropWhile_all_false cs h,
    dropWhile_all_false cs.reverse (fun c hc => h c (List.mem_reverse.mp hc))]
  exact List.reverse_reverse cs

/-- `normalize_version` is the identity on numeric dotted version strings. -/
theorem normalize_version_numeric {s : String} {xs : List Nat}
    (h : pkgParse s.data = some xs) : normalize_version s = s := by
  have hchars := pkgParse_chars h
  have hnospace : ∀ c ∈ s.data, isPySpace c = false := by
    intro c hc
    rcases hchars c hc with hd | hdot
    · exact digit_not_space hd
    · rw [hdot]; decide
  have hnoparen : ∀ c ∈ s.data, c ≠ '(' := by
    intro c hc he
    rcases hchars c hc with hd | hdot
    · rw [he] at hd; exact absurd hd (by decide)
    · rw [he] at hdot; exact absurd hdot (by decide)
  unfold normalize_version
  rw [pyStripL_eq_self hnospace, removeParens_eq_self _ hnoparen, pyStripL_eq_self hnospace]

/-- Unfolding equation of `pkgCmp` with an exhausted left list. -/
theorem pkgCmp_nil (ys : List Nat) :
    pkgCmp [] ys = if allZero ys then .eq else .lt := by
  cases ys <;> rfl

/-- Unfolding equation of `pkgCmp` with an exhausted right list. -/
theorem pkgCmp_cons_nil (x : Nat) (xs : List Nat) :
    pkgCmp (x :: xs) [] = if x = 0 then pkgCmp xs [] else .gt := by
  cases xs <;> rfl

/-- Unfolding equation of `pkgCmp` on two head components. -/
theorem pkgCmp_cons_cons (x y : Nat) (xs ys : List Nat) :
    pkgCmp (x :: xs) (y :: ys)
    = (if x < y then .lt else if y < x then .gt else pkgCmp xs ys) := by
  cases xs <;> cases ys <;> rfl

/-- A strict prefix (here the empty tuple) compares below any longer tuple. -/
theorem toksCmp_nil_cons (b : Tok) (bs : List Tok) : toksCmp [] (b :: bs) = .lt := rfl

/-- A longer tuple compares above its strict prefix (here the empty tuple). -/
theorem toksCmp_cons_nil (a : Tok) (as : List Tok) : toksCmp (a :: as) [] = .gt := rfl

/-- Unfolding equation of `toksCmp` on two head tokens. -/
theorem toksCmp_cons_cons (a b : Tok) (as bs : List Tok) :
    toksCmp (a :: as) (b :: bs)
    = (match tokCmp a b with
       | .eq => toksCmp as bs
       | o => o) := by
  cases as <;> cases bs <;> rfl

/-- Against an empty right list, padded comparison never yields `lt`. -/
theorem pkgCmp_nil_right : ∀ xs : List Nat, pkgCmp xs [] ≠ .lt := by
  intro xs
  induction xs with
  | nil => decide
  | cons x xs2 ih =>
    rw [pkgCmp_cons_nil]
    by_cases hx : x = 0
    · rw [if_pos hx]; exact ih
    · rw [if_neg hx]; simp

/-- Tuple comparison of numeric tokens disagrees with PEP 440 padded
comparison about `lt` only across a zero extension; everywhere else the two
orders coincide on strictness. -/
theorem toksCmp_pkgCmp : ∀ xs ys : List Nat, zeroExtOf xs ys = false →
    (toksCmp (xs.map Tok.num) (ys.map Tok.num) = .lt ↔ pkgCmp xs ys = .lt) := by
  intro xs
  induction xs with
  | nil =>
    intro ys hz
    cases ys with
    | nil => decide
    | cons y ys2 =>
      have hz2 : allZero (y :: ys2) = false := by simpa [zeroExtOf] using hz
      rw [List.map_nil, List.map_cons, toksCmp_nil_cons, pkgCmp_nil, hz2]
      simp
  | cons x xs2 ih =>
    intro ys hz
    cases ys with
    | nil =>
      constructor
      · intro hc
        rw [List.map_cons, List.map_nil] at hc
        exact absurd hc (by simp [toksCmp])
      · intro hc; exact absurd hc (pkgCmp_nil_right _)
    | cons y ys2 =>
      rw [List.map_cons, List.map_cons, toksCmp_cons_cons, pkgCmp_cons_cons]
      rw [show tokCmp (Tok.num x) (Tok.num y)
        = (if x < y then Ordering.lt else if y < x then .gt else .eq) from rfl]
      by_cases hxy : x < y
      · rw [if_pos hxy, if_pos hxy]
      · by_cases hyx : y < x
        · rw [if_neg hxy, if_pos hyx, if_neg hxy, if_pos hyx]
        · have hxy2 : x = y := le_antisymm (not_lt.mp hyx) (not_lt.mp hxy)
          rw [if_neg hxy, if_neg hyx, if_neg hxy, if_neg hyx]
          have hz2 : zeroExtOf xs2 ys2 = false := by
            rw [zeroExtOf] at hz
            simpa [hxy2] using hz
          exact ih ys2 hz2

/-- Outside the zero-extension case, `>=` under tuple comparison equals `>=`
under PEP 440 comparison. -/
theorem toksGe_eq_pkgGe {xs ys : List Nat} (hz : zeroExtOf xs ys = false) :
    toksGe (xs.map Tok.num) (ys.map Tok.num) = pkgGe xs ys := by
  have hiff := toksCmp_pkgCmp xs ys hz
  unfold toksGe pkgGe
  rcases h1 : toksCmp (xs.map Tok.num) (ys.map Tok.num) with _ | _ | _
  · rw [hiff.mp h1]
  · rcases h2 : pkgCmp xs ys with _ | _ | _
    · rw [hiff.mpr h2] at h1; cases h1
    · rfl
    · rfl
  · rcases h2 : pkgCmp xs ys with _ | _ | _
    · rw [hiff.mpr h2] at h1; cases h1
    · rfl
    · rfl

/-- C4 amended: for purely-numeric dotted version strings, the fallback
token comparison in `version_gte` agrees with the `packaging.version`
comparator whenever the candidate components are not a strict prefix of the
baseline components extended only by zeros.  In that excluded case — e.g.
`1.2` against `1.2.0` — the comparator treats the versions as equal while the
fallback orders the shorter strictly below (see the counterexample). -/
theorem c4_fallback_semantic_agreement (a b : String) (xs ys : List Nat)
    (ha : pkgParse a.data = some xs) (hb : pkgParse b.data = some ys)
    (hz : zeroExtOf xs ys = false) :
    version_gte none a b = pkgGe xs ys := by
  have hna := normalize_version_numeric ha
  have hnb := normalize_version_numeric hb
  have hbne : normalize_version b ≠ "" := by
    rw [hnb]
    intro he
    rw [he] at hb
    have hnone : pkgParse ("" : String).data = none := rfl
    rw [hnone] at hb
    exact Option.noConfusion hb
  have hane : normalize_version a ≠ "" := by
    rw [hna]
    intro he
    rw [he] at ha
    have hnone : pkgParse ("" : String).data = none := rfl
    rw [hnone] at ha
    exact Option.noConfusion ha
  unfold version_gte
  rw [if_neg hbne, if_neg hane, hna, hnb, tokenize_pkgParse ha, tokenize_pkgParse hb]
  exact toksGe_eq_pkgGe hz

/-- C4 counterexample: on the purely-numeric dotted versions `1.2` and
`1.2.0` the fallback of `version_gte` answers `1.2 >= 1.2.0` with false while
the semantic comparator, treating `1.2` and `1.2.0` as equal, answers true. -/
theorem c4_counterexample :
    pkgParse ("1.2" : String).data = some [1, 2]
    ∧ pkgParse ("1.2.0" : String).data = some [1, 2, 0]
    ∧ version_gte none "1.2" "1.2.0" = false
    ∧ pkgGe [1, 2] [1, 2, 0] = true :=
  ⟨by decide, by decide, by decide, by decide⟩

/-- Witness for `c4_fallback_semantic_agreement` at `1.2.3` versus `1.2`. -/
theorem c4_witness :
    pkgParse ("1.2.3" : String).data = some [1, 2, 3]
    ∧ pkgParse ("1.2" : String).data = some [1, 2]
    ∧ zeroExtOf [1, 2, 3] [1, 2] = false
    ∧ version_gte none "1.2.3" "1.2" = pkgGe [1, 2, 3] [1, 2] :=
  ⟨by decide, by decide, by decide,
   c4_fallback_semantic_agreement "1.2.3" "1.2" [1, 2, 3] [1, 2]
     (by decide) (by decide) (by decide)⟩

/-- Out of fuel, the loop model reports fuel exhaustion. -/
theorem patchLoop_zero (fetch : Nat → JVal) (page : Nat) (acc : List JVal) :
    patchLoop fetch 0 page acc = .fuelOut := rfl
/-- One unfolding of the `patch_report` loop body. -/
theorem patchLoop_succ (fetch : Nat → JVal) (fuel page : Nat) (acc : List JVal) :
    patchLoop fetch (fuel + 1) page acc
    = (match coerce_results (fetch page) with
       | none => .err
       | some (rows, total_est) =>
         if rows.isEmpty then .ok acc 1
         else
           match pageTotal (fetch page) total_est (acc ++ rows).length with
           | none => .err
           | some total =>
             if ((acc ++ rows).length : Int) ≥ total then .ok (acc ++ rows) 1
             else
               match patchLoop fetch fuel (page + 1) (acc ++ rows) with
               | .ok rows2 k => .ok rows2 (k + 1)
               | .err => .err
               | .fuelOut => .fuelOut) := by
  cases fuel <;> rfl
/-- An empty page stops the loop, returning the accumulator. -/
theorem patchLoop_step_empty (fetch : Nat → JVal) (fuel page : Nat) (acc rows : List JVal)
    (te : Int) (hcr : coerce_results (fetch page) = some (rows, te))
    (hre : rows.isEmpty = true) :
    patchLoop fetch (fuel + 1) page acc = .ok acc 1 := by
  rw [patchLoop_succ, hcr]
  simp [hre]
/-- A response on which `_coerce_results` raises aborts the loop. -/
theorem patchLoop_step_err (fetch : Nat → JVal) (fuel page : Nat) (acc : List JVal)
    (hcr : coerce_results (fetch page) = none) :
    patchLoop fetch (fuel + 1) page acc = .err := by
  rw [patchLoop_succ, hcr]
/-- Reaching the reported total stops the loop with the extended rows. -/
theorem patchLoop_step_total (fetch : Nat → JVal) (fuel page : Nat) (acc rows : List JVal)
    (te t : Int) (hcr : coerce_results (fetch page) = some (rows, te))
    (hre : rows.isEmpty = false)
    (hpt : pageTotal (fetch page) te (acc ++ rows).length = some t)
    (hge : ((acc ++ rows).length : Int) ≥ t) :
    patchLoop fetch (fuel + 1) page acc = .ok (acc ++ rows) 1 := by
  rw [patchLoop_succ, hcr]
  simp [hre, hpt, hge, -List.length_append]
/-- An ill-typed `totalCount` makes the comparison raise. -/
theorem patchLoop_step_errt (fetch : Nat → JVal) (fuel page : Nat) (acc rows : List JVal)
    (te : Int) (hcr : coerce_results (fetch page) = some (rows, te))
    (hre : rows.isEmpty = false)
    (hpt : pageTotal (fetch page) te (acc ++ rows).length = none) :
    patchLoop fetch (fuel + 1) page acc = .err := by
  rw [patchLoop_succ, hcr]
  simp [hre, hpt, -List.length_append]
/-- Otherwise the loop advances to the next page. -/
theorem patchLoop_step_next (fetch : Nat → JVal) (fuel page : Nat) (acc rows : List JVal)
    (te t : Int) (hcr : coerce_results (fetch page) = some (rows, te))
    (hre : rows.isEmpty = false)
    (hpt : pageTotal (fetch page) te (acc ++ rows).length = some t)
    (hlt : ¬(((acc ++ rows).length : Int) ≥ t)) :
    patchLoop fetch (fuel + 1) page acc
    = (match patchLoop fetch fuel (page + 1) (acc ++ rows) with
       | .ok rows2 k => .ok rows2 (k + 1)
       | .err => .err
       | .fuelOut => .fuelOut) := by
  rw [patchLoop_succ, hcr]
  simp [hre, hpt, hlt, -List.length_append]

/-- A well-typed response always yields a usable total. -/
theorem pageTotal_isSome {data : JVal} (h : wellResp data = true) (te : Int) (accLen : Nat) :
    ∃ t, pageTotal data te accLen = some t := by
  cases data with
  | dict es =>
    simp only [wellResp, Bool.and_eq_true] at h
    obtain ⟨h1, h2⟩ := h
    simp only [pageTotal]
    cases htc : jGet es "totalCount" with
    | none => exact ⟨(accLen : Int), rfl⟩
    | some w =>
      rw [htc] at h2
      cases w with
      | num n => exact ⟨n, rfl⟩
      | null => simp at h2
      | str s => simp at h2
      | list xs => simp at h2
      | dict es2 => simp at h2
  | null => exact ⟨te, rfl⟩
  | num n => exact ⟨te, rfl⟩
  | str s => exact ⟨te, rfl⟩
  | list l => exact ⟨te, rfl⟩

/-- If page `page + k` is empty and the pages before it are well typed,
the loop returns normally within `k + 1` fetches, for any sufficient fuel. -/
theorem patchLoop_term : ∀ (k : Nat) (fetch : Nat → JVal) (fuel page : Nat) (acc : List JVal),
    (∀ j, j < k → wellResp (fetch (page + j)) = true) →
    pageItems (fetch (page + k)) = some [] →
    k < fuel →
    (patchLoop fetch fuel page acc).isOk = true
    ∧ (patchLoop fetch fuel page acc).nFetches ≤ k + 1 := by
  intro k
  induction k with
  | zero =>
    intro fetch fuel page acc _ hN hfuel
    cases fuel with
    | zero => omega
    | succ f =>
      rw [Nat.add_zero] at hN
      unfold pageItems at hN
      rcases hcr : coerce_results (fetch page) with _ | ⟨rows, te⟩
      · rw [hcr] at hN; simp at hN
      · rw [hcr] at hN
        simp only [Option.map_some', Option.some.injEq] at hN
        have hre : rows.isEmpty = true := by rw [hN]; rfl
        rw [patchLoop_step_empty fetch f page acc rows te hcr hre]
        exact ⟨rfl, le_refl 1⟩
  | succ k ih =>
    intro fetch fuel page acc hwf hN hfuel
    cases fuel with
    | zero => omega
    | succ f =>
      have h0 : wellResp (fetch page) = true := by
        have := hwf 0 (by omega)
        rwa [Nat.add_zero] at this
      have h1 : (coerce_results (fetch page)).isSome = true := by
        have h0b := h0
        simp only [wellResp, Bool.and_eq_true] at h0b
        exact h0b.1
      rcases hcr : coerce_results (fetch page) with _ | ⟨rows, te⟩
      · rw [hcr] at h1; simp at h1
      · by_cases hre : rows.isEmpty = true
        · rw [patchLoop_step_empty fetch f page acc rows te hcr hre]
          refine ⟨rfl, ?_⟩
          show (1 : Nat) ≤ k + 1 + 1
          omega
        · have href : rows.isEmpty = false := by
            cases hb : rows.isEmpty
            · rfl
            · exact absurd hb hre
          obtain ⟨t, hpt⟩ := pageTotal_isSome h0 te (acc ++ rows).length
          by_cases hge : ((acc ++ rows).length : Int) ≥ t
          · rw [patchLoop_step_total fetch f page acc rows te t hcr href hpt hge]
            refine ⟨rfl, ?_⟩
            show (1 : Nat) ≤ k + 1 + 1
            omega
          · rw [patchLoop_step_next fetch f page acc rows te t hcr href hpt hge]
            have hwf2 : ∀ j, j < k → wellResp (fetch (page + 1 + j)) = true := by
              intro j hj
              have := hwf (j + 1) (by omega)
              rwa [show page + (j + 1) = page + 1 + j from by omega] at this
            have hN2 : pageItems (fetch (page + 1 + k)) = some [] := by
              rwa [show page + (k + 1) = page + 1 + k from by omega] at hN
            obtain ⟨hok2, hle2⟩ := ih fetch f (page + 1) (acc ++ rows) hwf2 hN2 (by omega)
            cases hrec : patchLoop fetch f (page + 1) (acc ++ rows) with
            | ok rows2 k2 =>
              constructor
              · rfl
              · rw [hrec] at hle2
                simp only [PRes.nFetches] at hle2
                show k2 + 1 ≤ k + 1 + 1
                omega
            | err => rw [hrec] at hok2; simp [PRes.isOk] at hok2
            | fuelOut => rw [hrec] at hok2; simp [PRes.isOk] at hok2

/-- A normal return collects exactly the concatenation of the items of the
pages fetched (the final empty page contributing nothing). -/
theorem patchLoop_rows : ∀ (fuel : Nat) (fetch : Nat → JVal) (page : Nat)
    (acc rows : List JVal) (k : Nat),
    patchLoop fetch fuel page acc = .ok rows k →
    rows.length = acc.length
      + ∑ j ∈ Finset.range k, ((pageItems (fetch (page + j))).getD []).length := by
  intro fuel
  induction fuel with
  | zero =>
    intro fetch page acc rows k h
    rw [patchLoop_zero] at h
    exact absurd h (by simp)
  | succ f ih =>
    intro fetch page acc rows k h
    rcases hcr : coerce_results (fetch page) with _ | ⟨prows, te⟩
    · rw [patchLoop_step_err fetch f page acc hcr] at h
      exact absurd h (by simp)
    · have hpage : ((pageItems (fetch (page + 0))).getD []).length = prows.length := by
        rw [Nat.add_zero]
        unfold pageItems
        rw [hcr]
        rfl
      by_cases hre : prows.isEmpty = true
      · rw [patchLoop_step_empty fetch f page acc prows te hcr hre] at h
        have hacc : acc = rows := by injection h
        have hk : k = 1 := by
          have h2 := h
          injection h2 with h3 h4
          omega
        subst hacc
        subst hk
        rw [Finset.sum_range_one, hpage]
        have hnil : prows = [] := by
          cases prows with
          | nil => rfl
          | cons a as => simp [List.isEmpty] at hre
        rw [hnil]
        simp
      · have href : prows.isEmpty = false := by
          cases hb : prows.isEmpty
          · rfl
          · exact absurd hb hre
        rcases hpt : pageTotal (fetch page) te (acc ++ prows).length with _ | t
        · rw [patchLoop_step_errt fetch f page acc prows te hcr href hpt] at h
          exact absurd h (by simp)
        · by_cases hge : ((acc ++ prows).length : Int) ≥ t
          · rw [patchLoop_step_total fetch f page acc prows te t hcr href hpt hge] at h
            have hacc : acc ++ prows = rows := by injection h
            have hk : k = 1 := by
              have h2 := h
              injection h2 with h3 h4
              omega
            subst hk
            rw [← hacc, Finset.sum_range_one, hpage, List.length_append]
          · rw [patchLoop_step_next fetch f page acc prows te t hcr href hpt hge] at h
            cases hrec : patchLoop fetch f (page + 1) (acc ++ prows) with
            | ok rows2 k2 =>
              rw [hrec] at h
              have hrows : rows2 = rows := by injection h
              have hk : k = k2 + 1 := by
                have h2 := h
                injection h2 with h3 h4
                omega
              subst hrows
              subst hk
              have hih := ih fetch (page + 1) (acc ++ prows) rows2 k2 hrec
              rw [List.length_append] at hih
              rw [Finset.sum_range_succ']
              have hsum : (∑ j ∈ Finset.range k2,
                    ((pageItems (fetch (page + (j + 1)))).getD []).length)
                  = ∑ j ∈ Finset.range k2,
                    ((pageItems (fetch (page + 1 + j))).getD []).length :=
                Finset.sum_congr rfl (fun j _ => by
                  rw [show page + (j + 1) = page + 1 + j from by omega])
              rw [hsum, hpage]
              omega
            | err => rw [hrec] at h; exact absurd h (by simp)
            | fuelOut => rw [hrec] at h; exact absurd h (by simp)

/-- C6 amended: for every page-fetch behaviour whose first `N` responses are
well typed and whose page `N` returns zero items, the paginated collection
loop of `patch_report` terminates normally, performs at most `N + 1` page
fetches, and returns exactly (hence at most) the sum of the items across the
pages actually fetched.  The claimed `ceil(totalEstimate/pageSize) + 1`
iteration bound does not hold in general — see the counterexample. -/
theorem c6_pagination_termination (fetch : Nat → JVal) (N fuel : Nat)
    (hwf : wellUpTo fetch N = true) (hN : pageItems (fetch N) = some [])
    (hfuel : N < fuel) :
    (patch_report fetch fuel).isOk = true
    ∧ (patch_report fetch fuel).nFetches ≤ N + 1
    ∧ (patch_report fetch fuel).nRows
        = ∑ j ∈ Finset.range (patch_report fetch fuel).nFetches,
            ((pageItems (fetch j)).getD []).length := by
  have hwf2 : ∀ j, j < N → wellResp (fetch (0 + j)) = true := by
    intro j hj
    rw [Nat.zero_add]
    unfold wellUpTo at hwf
    rw [List.all_eq_true] at hwf
    exact hwf j (List.mem_range.mpr hj)
  have hN2 : pageItems (fetch (0 + N)) = some [] := by rwa [Nat.zero_add]
  obtain ⟨hok, hle⟩ := patchLoop_term N fetch fuel 0 [] hwf2 hN2 hfuel
  refine ⟨hok, hle, ?_⟩
  cases hres : patchLoop fetch fuel 0 [] with
  | ok rows k =>
    have hrows := patchLoop_rows fuel fetch 0 [] rows k hres
    unfold patch_report
    rw [hres]
    simp only [PRes.nRows, PRes.nFetches]
    rw [hrows]
    have hsum : (∑ j ∈ Finset.range k, ((pageItems (fetch (0 + j))).getD []).length)
        = ∑ j ∈ Finset.range k, ((pageItems (fetch j)).getD []).length :=
      Finset.sum_congr rfl (fun j _ => by rw [Nat.zero_add])
    rw [hsum]
    simp
  | err =>
    rw [hres] at hok
    simp [PRes.isOk] at hok
  | fuelOut =>
    rw [hres] at hok
    simp [PRes.isOk] at hok

/-- C6 counterexample: with page size 200, every page reporting
`totalCount = 400`, one item per page for ten pages and then an empty page,
the loop performs 11 fetches — more than `ceil(400/200) + 1 = 3` — so the
claimed iteration bound fails when pages under-fill. -/
theorem c6_counterexample :
    (patch_report fetchCex 20).isOk = true
    ∧ (patch_report fetchCex 20).nFetches = 11
    ∧ ¬((patch_report fetchCex 20).nFetches ≤ 400 / 200 + 1) :=
  ⟨by decide, by decide, by decide⟩

/-- Witness for `c6_pagination_termination`: the first page is already
empty, the loop stops after one fetch. -/
theorem c6_witness :
    wellUpTo fetchW 0 = true
    ∧ pageItems (fetchW 0) = some []
    ∧ 0 < 2
    ∧ (patch_report fetchW 2).isOk = true
    ∧ (patch_report fetchW 2).nFetches ≤ 0 + 1 :=
  ⟨rfl, rfl, by decide,
   (c6_pagination_termination fetchW 0 2 rfl rfl (by decide)).1,
   (c6_pagination_termination fetchW 0 2 rfl rfl (by decide)).2.1⟩

/-- Members of an updated association list are old members or carry the
new binding. -/
theorem mem_updAssoc {α : Type} : ∀ (l : List (String × α)) (k : String) (v : α)
    (p : String × α), p ∈ updAssoc l k v → p ∈ l ∨ (p.1 = k ∧ p.2 = v) := by
  intro l k v
  induction l with
  | nil =>
    intro p hp
    simp only [updAssoc, List.mem_singleton] at hp
    right
    rw [hp]
    exact ⟨rfl, rfl⟩
  | cons e rest ih =>
    intro p hp
    rcases e with ⟨k0, v0⟩
    simp only [updAssoc] at hp
    by_cases hk : k0 = k
    · rw [if_pos hk] at hp
      rcases List.mem_cons.mp hp with h1 | h2
      · right; rw [h1]; exact ⟨hk, rfl⟩
      · left; exact List.mem_cons_of_mem _ h2
    · rw [if_neg hk] at hp
      rcases List.mem_cons.mp hp with h1 | h2
      · left; rw [h1]; exact List.mem_cons_self _ _
      · rcases ih p h2 with h3 | h4
        · left; exact List.mem_cons_of_mem _ h3
        · right; exact h4

/-- Updating one key leaves lookups of other keys unchanged. -/
theorem lookupA_updAssoc_ne {α : Type} : ∀ (l : List (String × α)) (k k2 : String) (v : α),
    k2 ≠ k → lookupA (updAssoc l k v) k2 = lookupA l k2 := by
  intro l k k2 v hne
  induction l with
  | nil =>
    simp only [updAssoc, lookupA, List.find?]
    rw [show ((k : String) == k2) = false from by
      rw [beq_eq_false_iff_ne]; exact fun h => hne h.symm]
  | cons e rest ih =>
    rcases e with ⟨k0, v0⟩
    simp only [updAssoc]
    by_cases hk : k0 = k
    · rw [if_pos hk]
      simp only [lookupA, List.find?]
      rw [show ((k0 : String) == k2) = false from by
        rw [beq_eq_false_iff_ne]; intro h; exact hne (by rw [← h, hk])]
    · rw [if_neg hk]
      simp only [lookupA, List.find?]
      cases hb : ((k0 : String) == k2)
      · simpa [lookupA] using ih
      · rfl

/-- A successful lookup names an actual entry of the association list. -/
theorem lookupA_mem {α : Type} : ∀ (l : List (String × α)) (k : String) (v : α),
    lookupA l k = some v → ∃ p ∈ l, p.1 = k ∧ p.2 = v := by
  intro l k v h
  unfold lookupA at h
  rcases hf : l.find? (fun p => p.1 == k) with _ | p0
  · rw [hf] at h; simp at h
  · rw [hf] at h
    simp only [Option.map_some', Option.some.injEq] at h
    have hmem := List.mem_of_find?_eq_some hf
    have hpred := List.find?_some hf
    simp only [beq_iff_eq] at hpred
    exact ⟨p0, hmem, hpred, h⟩

/-- One history assignment preserves the record-provenance invariant. -/
theorem histInsert_inv (C : String → String → Prop) (hist : History) (s date : String)
    (v : Int)
    (hhist : ∀ p ∈ hist, ∀ d, (lookupA p.2 d).isSome = true → C p.1 d)
    (hC : C s date) :
    ∀ p ∈ histInsert hist s date v, ∀ d, (lookupA p.2 d).isSome = true → C p.1 d := by
  intro p hp d hd
  unfold histInsert at hp
  cases hl : lookupA hist s with
  | some h0 =>
    rw [hl] at hp
    rcases mem_updAssoc _ _ _ _ hp with hin | ⟨hp1, hp2⟩
    · exact hhist p hin d hd
    · rw [hp1]
      by_cases hdd : d = date
      · rw [hdd]; exact hC
      · rw [hp2, lookupA_updAssoc_ne _ _ _ _ hdd] at hd
        obtain ⟨p0, hp0mem, hp01, hp02⟩ := lookupA_mem _ _ _ hl
        have hres := hhist p0 hp0mem d (by rw [hp02]; exact hd)
        rw [← hp01]
        exact hres
  | none =>
    rw [hl] at hp
    rcases List.mem_append.mp hp with hin | hnew
    · exact hhist p hin d hd
    · have hp2 : p = (s, [(date, v)]) := by simpa using hnew
      rw [hp2] at hd ⊢
      by_cases hdd : d = date
      · rw [hdd]; exact hC
      · exfalso
        simp only [lookupA, List.find?] at hd
        rw [show ((date : String) == d) = false from by
          rw [beq_eq_false_iff_ne]; exact fun h => hdd h.symm] at hd
        simp at hd

/-- Folding the rows of one dated file preserves the invariant. -/
theorem rowsFold_inv (C : String → String → Prop) (date : String) :
    ∀ (rows : List SnapRow) (hist : History),
    (∀ p ∈ hist, ∀ d, (lookupA p.2 d).isSome = true → C p.1 d) →
    (∀ row ∈ rows, C row.serial date) →
    ∀ p ∈ rows.foldl (fun h row => histInsert h row.serial date row.failed) hist,
      ∀ d, (lookupA p.2 d).isSome = true → C p.1 d := by
  intro rows
  induction rows with
  | nil => intro hist hh _ p hp; exact hh p hp
  | cons r rest ih =>
    intro hist hh hr
    simp only [List.foldl_cons]
    exact ih (histInsert hist r.serial date r.failed)
      (histInsert_inv C hist r.serial date r.failed hh (hr r (List.mem_cons_self _ _)))
      (fun row hrow => hr row (List.mem_cons_of_mem _ hrow))

/-- Folding all dated files preserves the invariant. -/
theorem filesFold_inv (C : String → String → Prop) :
    ∀ (fs : List (String × List SnapRow)) (hist : History),
    (∀ p ∈ hist, ∀ d, (lookupA p.2 d).isSome = true → C p.1 d) →
    (∀ fd ∈ fs, ∀ row ∈ fd.2, C row.serial fd.1) →
    ∀ p ∈ fs.foldl (fun hist fd =>
        fd.2.foldl (fun h row => histInsert h row.serial fd.1 row.failed) hist) hist,
      ∀ d, (lookupA p.2 d).isSome = true → C p.1 d := by
  intro fs
  induction fs with
  | nil => intro hist hh _ p hp; exact hh p hp
  | cons fd rest ih =>
    intro hist hh hr
    simp only [List.foldl_cons]
    exact ih _
      (rowsFold_inv C fd.1 fd.2 hist hh (fun row hrow => hr fd (List.mem_cons_self _ _) row hrow))
      (fun fd2 hfd2 row hrow => hr fd2 (List.mem_cons_of_mem _ hfd2) row hrow)

/-- Every dated value in the built history comes from a row of a file with
that date for that serial. -/
theorem buildHistory_mem_record (files : List (String × List SnapRow)) :
    ∀ p ∈ buildHistory files, ∀ d,
    (lookupA p.2 d).isSome = true → memRecord files p.1 d = true := by
  apply filesFold_inv (fun s d => memRecord files s d = true) files []
  · intro p hp; simp at hp
  · intro fd hfd row hrow
    unfold memRecord
    rw [List.any_eq_true]
    refine ⟨fd, hfd, ?_⟩
    rw [Bool.and_eq_true]
    refine ⟨by simp, ?_⟩
    rw [List.any_eq_true]
    exact ⟨row, hrow, by simp⟩

/-- The last element of a list extended by a singleton. -/
theorem getLastD_concat {α : Type} (l : List α) (a d : α) :
    (l ++ [a]).getLastD d = a := by
  rw [List.getLastD_eq_getLast?, List.getLast?_concat]
  rfl

/-- A per-entity cell is the history lookup of the column date. -/
theorem entityRow_cell (names : List (String × String)) (dates : List String)
    (j : Nat) (d : String) (hd : dates[j]? = some d) (p : String × List (String × Int)) :
    (entityRow names dates p).cells[j]? = some ((lookupA p.2 d).map ratOfInt) := by
  unfold entityRow
  rw [List.getElem?_map, hd]
  rfl

/-- The averages-row cell for a date is the arithmetic mean of exactly the
cells present in the per-entity rows of that column. -/
theorem avg_cell_eq (hist : History) (names : List (String × String)) (dates : List String)
    (j : Nat) (d : String) (hd : dates[j]? = some d) :
    (averageRow hist dates).cells[j]?
    = some (mkMean ((hist.map (entityRow names dates)).filterMap
        (fun r2 => (r2.cells[j]?).bind id))) := by
  have hcol : (hist.map (entityRow names dates)).filterMap (fun r2 => (r2.cells[j]?).bind id)
      = (hist.filterMap (fun p => lookupA p.2 d)).map ratOfInt := by
    rw [List.filterMap_map]
    rw [show ((fun r2 : TrendRow => (r2.cells[j]?).bind id) ∘ entityRow names dates)
        = fun p => (lookupA p.2 d).map ratOfInt from ?side]
    · rw [← List.map_filterMap]
    case side =>
      funext p
      simp only [Function.comp_apply]
      rw [entityRow_cell names dates j d hd p]
      cases lookupA p.2 d with
      | none => rfl
      | some v => rfl
  rw [hcol]
  unfold averageRow
  rw [List.getElem?_map, hd]
  simp only [Option.map_some', Option.some.injEq]
  unfold mkMean
  by_cases hv : (hist.filterMap (fun p => lookupA p.2 d)).isEmpty = true
  · rw [if_pos hv]
    have hm : ((hist.filterMap (fun p => lookupA p.2 d)).map ratOfInt).isEmpty = true := by
      cases hl : hist.filterMap (fun p => lookupA p.2 d) with
      | nil => rfl
      | cons a as => rw [hl] at hv; simp [List.isEmpty] at hv
    rw [if_pos hm]
  · rw [if_neg hv]
    have hm : ((hist.filterMap (fun p => lookupA p.2 d)).map ratOfInt).isEmpty = false := by
      cases hl : hist.filterMap (fun p => lookupA p.2 d) with
      | nil => rw [hl] at hv; exact absurd rfl hv
      | cons a as => rfl
    rw [hm]
    simp only [Bool.false_eq_true, if_false, Option.some.injEq]
    rw [List.length_map]

/-- C9: the trend builder appends exactly one trailing synthetic Average row;
a missing `(entity, date)` pair stays an absent cell rather than zero; and
each date's average is the mean of only the cells present in that column, so
entities absent on a date are excluded from its mean rather than counted as
zero. -/
theorem c9_trend_builder (files : List (String × List SnapRow)) (j : Nat) (d : String)
    (hd : (trendDates files)[j]? = some d) (r : TrendRow)
    (hr : r ∈ (process_compliance_reports files).dropLast)
    (hmem : memRecord files r.serial d = false) :
    (process_compliance_reports files).length = (buildHistory files).length + 1
    ∧ ((process_compliance_reports files).getLastD defaultTrendRow).serial
        = "Average Failed Checks"
    ∧ ((process_compliance_reports files).getLastD defaultTrendRow).cells[j]?
        = some (mkMean (((process_compliance_reports files).dropLast).filterMap
            (fun r2 => (r2.cells[j]?).bind id)))
    ∧ r.cells[j]? = some none := by
  refine ⟨?_, ?_, ?_, ?_⟩
  · unfold process_compliance_reports
    rw [List.length_append, List.length_map]
    rfl
  · unfold process_compliance_reports
    rw [getLastD_concat]
    rfl
  · unfold process_compliance_reports
    rw [getLastD_concat, List.dropLast_concat]
    exact avg_cell_eq (buildHistory files) (buildNames files) (trendDates files) j d hd
  · unfold process_compliance_reports at hr
    rw [List.dropLast_concat] at hr
    obtain ⟨p, hp, hpr⟩ := List.mem_map.mp hr
    have hser : r.serial = p.1 := by rw [← hpr]; rfl
    have hnone : lookupA p.2 d = none := by
      cases hlk : lookupA p.2 d with
      | none => rfl
      | some v =>
        have := buildHistory_mem_record files p hp d (by rw [hlk]; rfl)
        rw [← hser] at this
        rw [this] at hmem
        exact absurd hmem (by simp)
    rw [← hpr, entityRow_cell (buildNames files) (trendDates files) j d hd p, hnone]
    rfl

/-- Witness for `c9_trend_builder` on a two-snapshot scenario: SN2 is absent
from the second snapshot, its cell stays empty, and the second date's average
is 4 — the mean over only the value present that day (counting the absentee
as zero would have given 2). -/
theorem c9_witness :
    (trendDates filesC9)[1]? = some "2025-02-01"
    ∧ rowSN2 ∈ (process_compliance_reports filesC9).dropLast
    ∧ memRecord filesC9 rowSN2.serial "2025-02-01" = false
    ∧ rowSN2.cells[1]? = some none
    ∧ ((process_compliance_reports filesC9).getLastD defaultTrendRow).cells[1]?
        = some (some 4) :=
  ⟨by decide, by decide, by decide,
   (c9_trend_builder filesC9 1 "2025-02-01" (by decide) rowSN2 (by decide) (by decide)).2.2.2,
   by
     rw [(c9_trend_builder filesC9 1 "2025-02-01" (by decide) rowSN2 (by decide)
       (by decide)).2.2.1]
     rw [show ((process_compliance_reports filesC9).dropLast).filterMap
         (fun r2 => (r2.cells[1]?).bind id) = [(4 : Rat)] from by decide]
     simp [mkMean]⟩

end MacAdmin
